import Mathlib

/-!
Shallow embedding of the versioned workers-config migration engine from
`src/src/lib/configs/project/workers.ts` (a config of the fluence CLI),
together with a JSON-level embedding of the version-0 and version-1
schemas declared in the same file.
-/

set_option maxHeartbeats 1000000

namespace WorkersConfig

/-- Modelled from the spec: the fixed enumerated set of valid environment
targets (`FLUENCE_ENVS` from `const.js`, a file of this repository that is
not under `src/`).  The version-1 schema in `workers.ts` enumerates exactly
these five categories as sub-keys of `deals` and `hosts`. -/
inductive FluenceEnv where
  | custom
  | dar
  | kras
  | local
  | stage
deriving DecidableEq

/-- Modelled from the spec: the legacy chain-environment enumeration
(`CHAIN_ENV` from `const.js`, not under `src/`): the public environments,
i.e. the environments other than `custom`. -/
inductive ChainENV where
  | dar
  | kras
  | local
  | stage
deriving DecidableEq

def ChainENV.toFluenceEnv : ChainENV → FluenceEnv
  | .dar => .dar
  | .kras => .kras
  | .local => .local
  | .stage => .stage

/-- Modelled from the spec: the string spellings of `CHAIN_ENV`, used as the
declared value set of the `chainNetwork` enum in `dealSchema`. -/
def CHAIN_ENV : List String := ["dar", "kras", "local", "stage"]

/-- Modelled from the spec: `DEFAULT_PUBLIC_FLUENCE_ENV` from `const.js`
(not under `src/`), the default public environment used by the migration
when a deal has no `chainNetwork`.  Its exact value is irrelevant to every
theorem below; the public example environment of the spec is `kras`. -/
def DEFAULT_PUBLIC_FLUENCE_ENV : FluenceEnv := .kras

structure Deal where
  timestamp : String
  definition : String
  dealId : String
  dealIdOriginal : String
  chainNetworkId : Int
  chainNetwork : Option ChainENV
deriving DecidableEq

structure InstallationSpell where
  host_id : String
  spell_id : String
  worker_id : String
deriving DecidableEq

structure Host where
  timestamp : String
  definition : String
  relayId : String
  dummyDealId : String
  installation_spells : List InstallationSpell
deriving DecidableEq

/-- `ConfigV0` from `workers.ts`: flat maps of record name to record.
JavaScript objects iterate keys in insertion order, so a map is embedded as
an association list; an absent (or nullish) property is `none`. -/
structure ConfigV0 where
  deals : Option (List (String × Deal))
  hosts : Option (List (String × Host))
deriving DecidableEq

/-- `Deals` from `workers.ts`: a partial map from environment to a map of
record name to deal. -/
abbrev Deals := List (FluenceEnv × List (String × Deal))

/-- `Hosts` from `workers.ts`. -/
abbrev Hosts := List (FluenceEnv × List (String × Host))

/-- `ConfigV1` from `workers.ts`; a `none` field is a key omitted from the
output object. -/
structure ConfigV1 where
  deals : Option Deals
  hosts : Option Hosts
deriving DecidableEq

/-- JavaScript object property read (`m[k]`): first binding wins. -/
def objGet {α β : Type} [DecidableEq α] : List (α × β) → α → Option β
  | [], _ => none
  | (k', v) :: t, k => if k' = k then some v else objGet t k

/-- JavaScript object property write (`m[k] = v`): replaces the value in
place when the key is present, otherwise appends the new key at the end. -/
def objSet {α β : Type} [DecidableEq α] : List (α × β) → α → β → List (α × β)
  | [], k, v => [(k, v)]
  | (k', v') :: t, k, v =>
    if k' = k then (k, v) :: t else (k', v') :: objSet t k v

/-- Modelled from the spec: one call of the operator prompt collaborator
(`fluenceEnvPrompt` from `resolveFluenceEnv.js`, not under `src/`): the
core supplies the question text and a suggested default, the collaborator
renders them and collects one answer from the fixed enumerated set. -/
structure PromptCall where
  message : String
  suggestedDefault : Option FluenceEnv
deriving DecidableEq

/-- Question text built by the migration step for a deal record. -/
def dealMsg (configPath workerName : String) (deal : Deal) : String :=
  "Select the environment that you used for deploying worker " ++ workerName
    ++ " with dealId: " ++ deal.dealId ++ " at " ++ configPath

/-- Question text built by the migration step for a host record. -/
def hostMsg (configPath workerName : String) (host : Host) : String :=
  "Select the environment that you used for deploying worker " ++ workerName
    ++ " with dummyDealId: " ++ host.dummyDealId ++ " at " ++ configPath

/-- The prompt issued for one deal record (question plus suggested
default, which is the record's legacy `chainNetwork` when present). -/
def dealPromptCall (configPath : String) (p : String × Deal) : PromptCall :=
  { message := dealMsg configPath p.1 p.2
    suggestedDefault := p.2.chainNetwork.map ChainENV.toFluenceEnv }

/-- The prompt issued for one host record (suggested default is the
literal `"custom"`). -/
def hostPromptCall (configPath : String) (p : String × Host) : PromptCall :=
  { message := hostMsg configPath p.1 p.2
    suggestedDefault := some FluenceEnv.custom }

/-- The `for (const [workerName, deal] of Object.entries(config.deals ?? {}))`
loop of the v0-to-v1 migration step in `workers.ts`.  The operator is the
oracle `o`, consulted once per issued prompt (the prompt log doubles as the
count of prompts issued so far).  Note the source detail embedded here: the
loop reads `deals[env]` but, when that is undefined, stores the freshly
created sub-map under `deals[deal.chainNetwork ?? DEFAULT_PUBLIC_FLUENCE_ENV]`,
not under `env`. -/
def dealsLoop (configPath : String) (o : Nat → FluenceEnv) :
    List (String × Deal) → Deals → List PromptCall → Deals × List PromptCall
  | [], deals, log => (deals, log)
  | (workerName, deal) :: rest, deals, log =>
    let env := o log.length
    let log1 := log ++ [dealPromptCall configPath (workerName, deal)]
    let deals1 :=
      match objGet deals env with
      | some dealsForEnv => objSet deals env (objSet dealsForEnv workerName deal)
      | none =>
        objSet deals
          ((deal.chainNetwork.map ChainENV.toFluenceEnv).getD DEFAULT_PUBLIC_FLUENCE_ENV)
          (objSet [] workerName deal)
    dealsLoop configPath o rest deals1 log1

/-- The `for (const [workerName, host] of Object.entries(config.hosts ?? {}))`
loop of the v0-to-v1 migration step: here the fresh sub-map is stored under
`hosts[env]`. -/
def hostsLoop (configPath : String) (o : Nat → FluenceEnv) :
    List (String × Host) → Hosts → List PromptCall → Hosts × List PromptCall
  | [], hosts, log => (hosts, log)
  | (workerName, host) :: rest, hosts, log =>
    let env := o log.length
    let log1 := log ++ [hostPromptCall configPath (workerName, host)]
    let hosts1 :=
      match objGet hosts env with
      | some hostsForEnv => objSet hosts env (objSet hostsForEnv workerName host)
      | none => objSet hosts env (objSet [] workerName host)
    hostsLoop configPath o rest hosts1 log1

/-- The body of the single migration step in `migrations` (`workers.ts`),
after its initial schema validation: restructure `deals` and `hosts` and
omit a resulting map that is empty (`isEmpty(deals) ? {} : { deals }`).
The second component is the sequence of operator prompts issued. -/
def migrateV0ToV1 (configPath : String) (o : Nat → FluenceEnv) (config : ConfigV0) :
    ConfigV1 × List PromptCall :=
  let d := dealsLoop configPath o (config.deals.getD []) [] []
  let h := hostsLoop configPath o (config.hosts.getD []) [] d.2
  ({ deals := if d.1.isEmpty then none else some d.1
     hosts := if h.1.isEmpty then none else some h.1 }, h.2)

/-- A JSON/YAML value as held in memory after parsing the backing store
(numbers restricted to the integers, which is all the schemas use). -/
inductive Json where
  | null
  | bool (b : Bool)
  | num (n : Int)
  | str (s : String)
  | arr (xs : List Json)
  | obj (fields : List (String × Json))

/-- Error for an object key not declared by a closed-world schema
(`additionalProperties: false`). -/
def checkNoExtra (p : String) (declared : List String) (fs : List (String × Json)) :
    List String :=
  (fs.filter (fun q => decide (q.1 ∉ declared))).map
    (fun q => p ++ "/" ++ q.1 ++ ": must NOT have additional properties")

/-- Error for each `required` property that is absent. -/
def checkRequired (p : String) (req : List String) (fs : List (String × Json)) :
    List String :=
  (req.filter (fun k => (objGet fs k).isNone)).map
    (fun k => p ++ ": must have required property " ++ k)

/-- Check of a `{ type: "string" }` property, when present. -/
def checkStringField (p k : String) (fs : List (String × Json)) : List String :=
  match objGet fs k with
  | none => []
  | some (.str _) => []
  | some _ => [p ++ "/" ++ k ++ ": must be string"]

/-- Check of a `{ type: "integer" }` property, when present. -/
def checkIntField (p k : String) (fs : List (String × Json)) : List String :=
  match objGet fs k with
  | none => []
  | some (.num _) => []
  | some _ => [p ++ "/" ++ k ++ ": must be integer"]

/-- Check of the `version: { type: "integer", const: n }` property, when
present (its absence is reported by the `required` check). -/
def checkVersionConst (n : Int) (fs : List (String × Json)) : List String :=
  match objGet fs "version" with
  | none => []
  | some (.num m) => if m = n then [] else ["/version: must be equal to constant"]
  | some _ => ["/version: must be integer"]

/-- Check of the nullable `chainNetwork` enum property of `dealSchema`. -/
def checkChainNetwork (p : String) (fs : List (String × Json)) : List String :=
  match objGet fs "chainNetwork" with
  | none => []
  | some .null => []
  | some (.str s) =>
    if s ∈ CHAIN_ENV then []
    else [p ++ "/chainNetwork: must be equal to one of the allowed values"]
  | some _ => [p ++ "/chainNetwork: must be string"]

/-- `dealSchema` from `workers.ts`: a closed object with the two
`workerInfoSchema` fields plus the deal fields. -/
def checkDeal (p : String) (v : Json) : List String :=
  match v with
  | .obj fs =>
    checkNoExtra p
        ["definition", "timestamp", "dealId", "dealIdOriginal", "chainNetwork",
          "chainNetworkId"] fs
      ++ checkRequired p ["timestamp", "definition", "dealId", "dealIdOriginal",
          "chainNetworkId"] fs
      ++ checkStringField p "definition" fs
      ++ checkStringField p "timestamp" fs
      ++ checkStringField p "dealId" fs
      ++ checkStringField p "dealIdOriginal" fs
      ++ checkChainNetwork p fs
      ++ checkIntField p "chainNetworkId" fs
  | _ => [p ++ ": must be object"]

/-- The `installation_spells` array items schema of `hostSchema`. -/
def checkSpell (p : String) (v : Json) : List String :=
  match v with
  | .obj fs =>
    checkNoExtra p ["host_id", "spell_id", "worker_id"] fs
      ++ checkRequired p ["host_id", "spell_id", "worker_id"] fs
      ++ checkStringField p "host_id" fs
      ++ checkStringField p "spell_id" fs
      ++ checkStringField p "worker_id" fs
  | _ => [p ++ ": must be object"]

/-- Check of the `installation_spells` array property, when present. -/
def checkSpells (p : String) (fs : List (String × Json)) : List String :=
  match objGet fs "installation_spells" with
  | none => []
  | some (.arr xs) => (xs.map (checkSpell (p ++ "/installation_spells"))).flatten
  | some _ => [p ++ "/installation_spells: must be array"]

/-- `hostSchema` from `workers.ts`. -/
def checkHost (p : String) (v : Json) : List String :=
  match v with
  | .obj fs =>
    checkNoExtra p ["definition", "timestamp", "dummyDealId", "installation_spells",
        "relayId"] fs
      ++ checkRequired p ["timestamp", "definition", "installation_spells", "relayId",
          "dummyDealId"] fs
      ++ checkStringField p "definition" fs
      ++ checkStringField p "timestamp" fs
      ++ checkStringField p "dummyDealId" fs
      ++ checkStringField p "relayId" fs
      ++ checkSpells p fs
  | _ => [p ++ ": must be object"]

/-- `mapOfDealsSchema` / `mapOfHostsSchema` from `workers.ts`: a nullable
object whose every property value (declared or additional) must satisfy
the record schema `chk`. -/
def checkMapOf (chk : String → Json → List String) (p : String) (v : Json) :
    List String :=
  match v with
  | .null => []
  | .obj fs => (fs.map (fun q => chk (p ++ "/" ++ q.1) q.2)).flatten
  | _ => [p ++ ": must be object"]

/-- The version-1 `deals` / `hosts` property: a nullable closed object whose
keys range over the five environments, each holding a record map. -/
def checkEnvMap (chk : String → Json → List String) (p : String) (v : Json) :
    List String :=
  match v with
  | .null => []
  | .obj fs =>
    checkNoExtra p ["custom", "dar", "kras", "local", "stage"] fs
      ++ (fs.map (fun q => checkMapOf chk (p ++ "/" ++ q.1) q.2)).flatten
  | _ => [p ++ ": must be object"]

/-- `configSchemaV0` from `workers.ts`, as an error collector: a closed
object with required `version` (const `0`) and optional nullable `deals`
and `hosts` record maps. -/
def checkConfigSchemaV0 (j : Json) : List String :=
  match j with
  | .obj fs =>
    checkNoExtra "" ["version", "deals", "hosts"] fs
      ++ checkRequired "" ["version"] fs
      ++ checkVersionConst 0 fs
      ++ (match objGet fs "deals" with
          | none => []
          | some v => checkMapOf checkDeal "/deals" v)
      ++ (match objGet fs "hosts" with
          | none => []
          | some v => checkMapOf checkHost "/hosts" v)
  | _ => [": must be object"]

/-- `configSchemaV1` from `workers.ts`, as an error collector. -/
def checkConfigSchemaV1 (j : Json) : List String :=
  match j with
  | .obj fs =>
    checkNoExtra "" ["version", "deals", "hosts"] fs
      ++ checkRequired "" ["version"] fs
      ++ checkVersionConst 1 fs
      ++ (match objGet fs "deals" with
          | none => []
          | some v => checkEnvMap checkDeal "/deals" v)
      ++ (match objGet fs "hosts" with
          | none => []
          | some v => checkEnvMap checkHost "/hosts" v)
  | _ => [": must be object"]

/-- `validateConfigSchemaV0` from `workers.ts` (the compiled ajv validator):
acceptance is the absence of validation errors. -/
def validateConfigSchemaV0 (j : Json) : Bool :=
  (checkConfigSchemaV0 j).isEmpty

/-- The compiled validator of `configSchemaV1`. -/
def validateConfigSchemaV1 (j : Json) : Bool :=
  (checkConfigSchemaV1 j).isEmpty

/-- Modelled from the spec: `validationErrorToString` (`ajvInstance.js`, not
under `src/`) renders the complete list of schema violations collected by
the validator, not just the first, joined into one message. -/
def validationErrorToString : List String → String
  | [] => ""
  | [e] => e
  | e :: es => e ++ ", " ++ validationErrorToString es

/-- Read an optional string-typed JSON value. -/
def asStr : Option Json → Option String
  | some (.str s) => some s
  | _ => none

/-- Read an optional integer-typed JSON value. -/
def asInt : Option Json → Option Int
  | some (.num n) => some n
  | _ => none

/-- The inverse of the `enum: CHAIN_ENV` spelling. -/
def chainEnvOfString (s : String) : Option ChainENV :=
  if s = "dar" then some .dar
  else if s = "kras" then some .kras
  else if s = "local" then some .local
  else if s = "stage" then some .stage
  else none

/-- Interpretation of a validated JSON deal record as the TypeScript `Deal`
value the migration step operates on. -/
def parseDeal (v : Json) : Option Deal :=
  match v with
  | .obj fs =>
    match asStr (objGet fs "timestamp"), asStr (objGet fs "definition"),
        asStr (objGet fs "dealId"), asStr (objGet fs "dealIdOriginal"),
        asInt (objGet fs "chainNetworkId") with
    | some t, some df, some di, some dio, some cni =>
      match objGet fs "chainNetwork" with
      | none => some ⟨t, df, di, dio, cni, none⟩
      | some .null => some ⟨t, df, di, dio, cni, none⟩
      | some (.str s) => (chainEnvOfString s).map (fun c => ⟨t, df, di, dio, cni, some c⟩)
      | some _ => none
    | _, _, _, _, _ => none
  | _ => none

/-- Interpretation of a validated JSON installation spell. -/
def parseSpell (v : Json) : Option InstallationSpell :=
  match v with
  | .obj fs =>
    match asStr (objGet fs "host_id"), asStr (objGet fs "spell_id"),
        asStr (objGet fs "worker_id") with
    | some h, some s, some w => some ⟨h, s, w⟩
    | _, _, _ => none
  | _ => none

/-- Interpretation of a validated JSON host record. -/
def parseHost (v : Json) : Option Host :=
  match v with
  | .obj fs =>
    match asStr (objGet fs "timestamp"), asStr (objGet fs "definition"),
        asStr (objGet fs "relayId"), asStr (objGet fs "dummyDealId"),
        objGet fs "installation_spells" with
    | some t, some df, some r, some dd, some (.arr xs) =>
      (xs.mapM parseSpell).map (fun sp => ⟨t, df, r, dd, sp⟩)
    | _, _, _, _, _ => none
  | _ => none

/-- Interpretation of an optional record-map property (`deals` / `hosts`):
an absent or null property is an absent map. -/
def parseRecordMap {γ : Type} (parseRec : Json → Option γ) :
    Option Json → Option (Option (List (String × γ)))
  | none => some none
  | some .null => some none
  | some (.obj fs) =>
    (fs.mapM (fun q => (parseRec q.2).map (fun r => (q.1, r)))).map some
  | some _ => none

/-- Interpretation of a validated version-0 JSON document as `ConfigV0`. -/
def parseConfigV0 (j : Json) : Option ConfigV0 :=
  match j with
  | .obj fs =>
    match parseRecordMap parseDeal (objGet fs "deals"),
        parseRecordMap parseHost (objGet fs "hosts") with
    | some ds, some hs => some ⟨ds, hs⟩
    | _, _ => none
  | _ => none

/-- The complete single migration step stored in `migrations` in
`workers.ts`: first validate the raw document against `configSchemaV0`,
throwing a `Migration error` message that renders every collected schema
violation; on success run the restructuring on the typed document. -/
def migration0 (configPath : String) (o : Nat → FluenceEnv) (j : Json) :
    Except String (ConfigV1 × List PromptCall) :=
  match checkConfigSchemaV0 j with
  | [] =>
    match parseConfigV0 j with
    | some config => .ok (migrateV0ToV1 configPath o config)
    | none => .error "Migration error. Errors: internal"
  | errs => .error ("Migration error. Errors: " ++ validationErrorToString errs)

/-- `Config` from `workers.ts`: the union of all historical document
shapes. -/
inductive Config where
  | v0 (c : ConfigV0)
  | v1 (c : ConfigV1)
deriving DecidableEq

/-- The declared `version` field selecting the schema of a document. -/
def configVersion : Config → Nat
  | .v0 _ => 0
  | .v1 _ => 1

/-- The migration step of `migrations` on the typed document union: a
version-1 value fails the step's defensive `configSchemaV0` check (its
`version` field violates `const: 0`), a version-0 value is restructured. -/
def migrationStep (configPath : String) (o : Nat → FluenceEnv) :
    Config → Except String (ConfigV1 × List PromptCall)
  | .v0 c => .ok (migrateV0ToV1 configPath o c)
  | .v1 _ => .error "Migration error. Errors: /version: must be equal to constant"

/-- The `migrations` array registered for the workers config in
`workers.ts`: exactly one step, consuming version 0. -/
def migrations (configPath : String) (o : Nat → FluenceEnv) :
    List (Config → Except String (ConfigV1 × List PromptCall)) :=
  [migrationStep configPath o]

/-- Left-to-right fold of a migration chain, accumulating the prompts the
steps issue and aborting on the first failing step. -/
def runChain (steps : List (Config → Except String (ConfigV1 × List PromptCall)))
    (c : Config) (log : List PromptCall) : Except String (Config × List PromptCall) :=
  match steps with
  | [] => .ok (c, log)
  | s :: rest =>
    match s c with
    | .error e => .error e
    | .ok (c1, log1) => runChain rest (.v1 c1) (log ++ log1)

/-- Modelled from the spec: the generic config driver (`initConfig.js`, not
under `src/`) migrates a loaded document by folding, left to right, the
ordered migration steps whose domain starts at the document's declared
version; a document already at the latest version matches no step and
passes through unchanged. -/
def migrateToLatest (configPath : String) (o : Nat → FluenceEnv) (c : Config) :
    Except String (Config × List PromptCall) :=
  runChain ((migrations configPath o).drop (configVersion c)) c []

theorem objGet_objSet_same {α β : Type} [DecidableEq α] (l : List (α × β)) (k : α) (v : β) :
    objGet (objSet l k v) k = some v := by
  induction l with
  | nil => simp [objGet, objSet]
  | cons p t ih =>
    obtain ⟨k', v'⟩ := p
    by_cases h : k' = k <;> simp [objGet, objSet, h, ih]

theorem objGet_objSet_ne {α β : Type} [DecidableEq α] (l : List (α × β)) (k k' : α) (v : β)
    (h : k' ≠ k) : objGet (objSet l k v) k' = objGet l k' := by
  have hk : k ≠ k' := Ne.symm h
  induction l with
  | nil => simp [objGet, objSet, hk]
  | cons p t ih =>
    obtain ⟨k'', v''⟩ := p
    by_cases h2 : k'' = k
    · subst h2
      simp [objGet, objSet, hk]
    · simp [objGet, objSet, h2, ih]

theorem objSet_ne_nil {α β : Type} [DecidableEq α] (l : List (α × β)) (k : α) (v : β) :
    objSet l k v ≠ [] := by
  cases l with
  | nil => simp [objSet]
  | cons p t =>
    obtain ⟨k', v'⟩ := p
    by_cases h : k' = k <;> simp [objSet, h]

theorem mem_objSet {α β : Type} [DecidableEq α] (l : List (α × β)) (k : α) (v : β)
    (q : α × β) (hq : q ∈ objSet l k v) : q ∈ l ∨ q = (k, v) := by
  induction l with
  | nil => simpa [objSet] using hq
  | cons p t ih =>
    obtain ⟨k', v'⟩ := p
    by_cases h : k' = k
    · simp only [objSet, h, if_pos rfl] at hq
      rcases List.mem_cons.mp hq with h1 | h1
      · right; exact h1
      · left; exact List.mem_cons_of_mem _ h1
    · simp only [objSet, if_neg h] at hq
      rcases List.mem_cons.mp hq with h1 | h1
      · left; exact h1 ▸ List.mem_cons_self _ _
      · rcases ih h1 with h2 | h2
        · left; exact List.mem_cons_of_mem _ h2
        · right; exact h2

theorem objGet_of_mem_nodup {α β : Type} [DecidableEq α] (l : List (α × β)) (k : α) (v : β)
    (hmem : (k, v) ∈ l) (hnd : (l.map Prod.fst).Nodup) : objGet l k = some v := by
  induction l with
  | nil => cases hmem
  | cons p t ih =>
    obtain ⟨k', v'⟩ := p
    simp only [List.map_cons, List.nodup_cons] at hnd
    rcases List.mem_cons.mp hmem with h1 | h1
    · cases h1
      simp [objGet]
    · have hne : k' ≠ k := by
        intro e
        exact hnd.1 (e ▸ (List.mem_map.mpr ⟨(k, v), h1, rfl⟩))
      simp [objGet, hne, ih h1 hnd.2]

theorem objSet_of_get_none {α β : Type} [DecidableEq α] (l : List (α × β)) (k : α) (v : β)
    (h : objGet l k = none) : objSet l k v = l ++ [(k, v)] := by
  induction l with
  | nil => simp [objSet]
  | cons p t ih =>
    obtain ⟨k', v'⟩ := p
    by_cases h2 : k' = k
    · simp [objGet, h2] at h
    · simp only [objGet, if_neg h2] at h
      simp [objSet, h2, ih h]

theorem dealsLoop_log (configPath : String) (o : Nat → FluenceEnv) :
    ∀ (rest : List (String × Deal)) (acc : Deals) (log : List PromptCall),
      (dealsLoop configPath o rest acc log).2 = log ++ rest.map (dealPromptCall configPath)
  | [], acc, log => by simp [dealsLoop]
  | (workerName, deal) :: rest, acc, log => by
    simp only [dealsLoop, List.map_cons]
    rw [dealsLoop_log configPath o rest]
    simp

theorem hostsLoop_log (configPath : String) (o : Nat → FluenceEnv) :
    ∀ (rest : List (String × Host)) (acc : Hosts) (log : List PromptCall),
      (hostsLoop configPath o rest acc log).2 = log ++ rest.map (hostPromptCall configPath)
  | [], acc, log => by simp [hostsLoop]
  | (workerName, host) :: rest, acc, log => by
    simp only [hostsLoop, List.map_cons]
    rw [hostsLoop_log configPath o rest]
    simp

/-- The complete prompt transcript of the migration step: one prompt per
deal record (in document order, suggesting the legacy `chainNetwork`),
followed by one prompt per host record (suggesting `custom`). -/
theorem migrateV0ToV1_log (configPath : String) (o : Nat → FluenceEnv) (config : ConfigV0) :
    (migrateV0ToV1 configPath o config).2
      = (config.deals.getD []).map (dealPromptCall configPath)
        ++ (config.hosts.getD []).map (hostPromptCall configPath) := by
  simp [migrateV0ToV1, dealsLoop_log, hostsLoop_log]

theorem dealsLoop_acc_ne_nil (configPath : String) (o : Nat → FluenceEnv) :
    ∀ (rest : List (String × Deal)) (acc : Deals) (log : List PromptCall),
      acc ≠ [] → (dealsLoop configPath o rest acc log).1 ≠ []
  | [], acc, log, h => h
  | (workerName, deal) :: rest, acc, log, h => by
    simp only [dealsLoop]
    apply dealsLoop_acc_ne_nil
    cases hx : objGet acc (o log.length) with
    | some m => simp [hx, objSet_ne_nil]
    | none => simp [hx, objSet_ne_nil]

theorem hostsLoop_acc_ne_nil (configPath : String) (o : Nat → FluenceEnv) :
    ∀ (rest : List (String × Host)) (acc : Hosts) (log : List PromptCall),
      acc ≠ [] → (hostsLoop configPath o rest acc log).1 ≠ []
  | [], acc, log, h => h
  | (workerName, host) :: rest, acc, log, h => by
    simp only [hostsLoop]
    apply hostsLoop_acc_ne_nil
    cases hx : objGet acc (o log.length) with
    | some m => simp [hx, objSet_ne_nil]
    | none => simp [hx, objSet_ne_nil]

theorem dealsLoop_ne_nil (configPath : String) (o : Nat → FluenceEnv)
    (rest : List (String × Deal)) (acc : Deals) (log : List PromptCall)
    (h : rest ≠ []) : (dealsLoop configPath o rest acc log).1 ≠ [] := by
  cases rest with
  | nil => cases h rfl
  | cons p rest =>
    obtain ⟨workerName, deal⟩ := p
    simp only [dealsLoop]
    apply dealsLoop_acc_ne_nil
    cases hx : objGet acc (o log.length) with
    | some m => simp [hx, objSet_ne_nil]
    | none => simp [hx, objSet_ne_nil]

theorem hostsLoop_ne_nil (configPath : String) (o : Nat → FluenceEnv)
    (rest : List (String × Host)) (acc : Hosts) (log : List PromptCall)
    (h : rest ≠ []) : (hostsLoop configPath o rest acc log).1 ≠ [] := by
  cases rest with
  | nil => cases h rfl
  | cons p rest =>
    obtain ⟨workerName, host⟩ := p
    simp only [hostsLoop]
    apply hostsLoop_acc_ne_nil
    cases hx : objGet acc (o log.length) with
    | some m => simp [hx, objSet_ne_nil]
    | none => simp [hx, objSet_ne_nil]

theorem dealsLoop_vals_ne_nil (configPath : String) (o : Nat → FluenceEnv) :
    ∀ (rest : List (String × Deal)) (acc : Deals) (log : List PromptCall),
      (∀ p ∈ acc, p.2 ≠ ([] : List (String × Deal))) →
      ∀ p ∈ (dealsLoop configPath o rest acc log).1, p.2 ≠ []
  | [], acc, log, hacc => hacc
  | (workerName, deal) :: rest, acc, log, hacc => by
    simp only [dealsLoop]
    apply dealsLoop_vals_ne_nil
    intro p hp
    cases hx : objGet acc (o log.length) with
    | some m =>
      rw [hx] at hp
      rcases mem_objSet _ _ _ _ hp with h1 | h1
      · exact hacc p h1
      · rw [h1]
        exact objSet_ne_nil _ _ _
    | none =>
      rw [hx] at hp
      rcases mem_objSet _ _ _ _ hp with h1 | h1
      · exact hacc p h1
      · rw [h1]
        exact objSet_ne_nil _ _ _

theorem hostsLoop_vals_ne_nil (configPath : String) (o : Nat → FluenceEnv) :
    ∀ (rest : List (String × Host)) (acc : Hosts) (log : List PromptCall),
      (∀ p ∈ acc, p.2 ≠ ([] : List (String × Host))) →
      ∀ p ∈ (hostsLoop configPath o rest acc log).1, p.2 ≠ []
  | [], acc, log, hacc => hacc
  | (workerName, host) :: rest, acc, log, hacc => by
    simp only [hostsLoop]
    apply hostsLoop_vals_ne_nil
    intro p hp
    cases hx : objGet acc (o log.length) with
    | some m =>
      rw [hx] at hp
      rcases mem_objSet _ _ _ _ hp with h1 | h1
      · exact hacc p h1
      · rw [h1]
        exact objSet_ne_nil _ _ _
    | none =>
      rw [hx] at hp
      rcases mem_objSet _ _ _ _ hp with h1 | h1
      · exact hacc p h1
      · rw [h1]
        exact objSet_ne_nil _ _ _

theorem dealsLoop_sound (configPath : String) (o : Nat → FluenceEnv)
    (full : List (String × Deal)) :
    ∀ (rest : List (String × Deal)) (acc : Deals) (log : List PromptCall),
      (∀ e m w d, objGet acc e = some m → objGet m w = some d → objGet full w = some d) →
      (∀ w d, (w, d) ∈ rest → objGet full w = some d) →
      ∀ e m w d, objGet ((dealsLoop configPath o rest acc log).1) e = some m →
        objGet m w = some d → objGet full w = some d
  | [], acc, log, hacc, _ => hacc
  | (workerName, deal) :: rest, acc, log, hacc, hrest => by
    simp only [dealsLoop]
    apply dealsLoop_sound configPath o full rest _ _ _
      (fun w d hw => hrest w d (List.mem_cons_of_mem _ hw))
    intro e m w d he hm
    cases hx : objGet acc (o log.length) with
    | some m0 =>
      rw [hx] at he
      by_cases hee : e = o log.length
      · subst hee
        rw [objGet_objSet_same] at he
        injection he with hme
        subst hme
        by_cases hww : w = workerName
        · subst hww
          rw [objGet_objSet_same] at hm
          injection hm with hd
          subst hd
          exact hrest _ _ (List.mem_cons_self _ _)
        · rw [objGet_objSet_ne _ _ _ _ hww] at hm
          exact hacc _ _ _ _ hx hm
      · rw [objGet_objSet_ne _ _ _ _ hee] at he
        exact hacc _ _ _ _ he hm
    | none =>
      rw [hx] at he
      by_cases hee :
          e = (deal.chainNetwork.map ChainENV.toFluenceEnv).getD DEFAULT_PUBLIC_FLUENCE_ENV
      · subst hee
        rw [objGet_objSet_same] at he
        injection he with hme
        subst hme
        by_cases hww : w = workerName
        · subst hww
          rw [objGet_objSet_same] at hm
          injection hm with hd
          subst hd
          exact hrest _ _ (List.mem_cons_self _ _)
        · rw [objGet_objSet_ne _ _ _ _ hww] at hm
          simp [objGet] at hm
      · rw [objGet_objSet_ne _ _ _ _ hee] at he
        exact hacc _ _ _ _ he hm

theorem hostsLoop_sound (configPath : String) (o : Nat → FluenceEnv)
    (full : List (String × Host)) :
    ∀ (rest : List (String × Host)) (acc : Hosts) (log : List PromptCall),
      (∀ e m w h, objGet acc e = some m → objGet m w = some h → objGet full w = some h) →
      (∀ w h, (w, h) ∈ rest → objGet full w = some h) →
      ∀ e m w h, objGet ((hostsLoop configPath o rest acc log).1) e = some m →
        objGet m w = some h → objGet full w = some h
  | [], acc, log, hacc, _ => hacc
  | (workerName, host) :: rest, acc, log, hacc, hrest => by
    simp only [hostsLoop]
    apply hostsLoop_sound configPath o full rest _ _ _
      (fun w h hw => hrest w h (List.mem_cons_of_mem _ hw))
    intro e m w h he hm
    cases hx : objGet acc (o log.length) with
    | some m0 =>
      rw [hx] at he
      by_cases hee : e = o log.length
      · subst hee
        rw [objGet_objSet_same] at he
        injection he with hme
        subst hme
        by_cases hww : w = workerName
        · subst hww
          rw [objGet_objSet_same] at hm
          injection hm with hd
          subst hd
          exact hrest _ _ (List.mem_cons_self _ _)
        · rw [objGet_objSet_ne _ _ _ _ hww] at hm
          exact hacc _ _ _ _ hx hm
      · rw [objGet_objSet_ne _ _ _ _ hee] at he
        exact hacc _ _ _ _ he hm
    | none =>
      rw [hx] at he
      by_cases hee : e = o log.length
      · subst hee
        rw [objGet_objSet_same] at he
        injection he with hme
        subst hme
        by_cases hww : w = workerName
        · subst hww
          rw [objGet_objSet_same] at hm
          injection hm with hd
          subst hd
          exact hrest _ _ (List.mem_cons_self _ _)
        · rw [objGet_objSet_ne _ _ _ _ hww] at hm
          simp [objGet] at hm
      · rw [objGet_objSet_ne _ _ _ _ hee] at he
        exact hacc _ _ _ _ he hm

/-- The operator confirms each suggested default: starting at prompt index
`n`, every record in the list has a present `chainNetwork` and the answer
to its prompt is exactly that environment. -/
def confirms (o : Nat → FluenceEnv) : Nat → List (String × Deal) → Prop
  | _, [] => True
  | n, (_, d) :: rest =>
    (∃ cn, d.chainNetwork = some cn ∧ o n = cn.toFluenceEnv) ∧ confirms o (n + 1) rest

theorem dealsLoop_preserve (configPath : String) (o : Nat → FluenceEnv) :
    ∀ (rest : List (String × Deal)) (acc : Deals) (log : List PromptCall)
      (e : FluenceEnv) (m : List (String × Deal)) (w : String) (d : Deal),
      confirms o log.length rest →
      objGet acc e = some m → objGet m w = some d → w ∉ rest.map Prod.fst →
      ∃ m2, objGet (dealsLoop configPath o rest acc log).1 e = some m2
        ∧ objGet m2 w = some d
  | [], acc, log, e, m, w, d, _, he, hm, _ => ⟨m, he, hm⟩
  | (workerName, deal) :: rest, acc, log, e, m, w, d, hconf, he, hm, hw => by
    obtain ⟨⟨cn0, hcn0, henv⟩, hconf2⟩ := hconf
    have hw0 : w ≠ workerName := by
      intro hcontra
      exact hw (by simp [hcontra])
    have hwrest : w ∉ rest.map Prod.fst := by
      intro hcontra
      exact hw (by simp [hcontra])
    have hconf3 : confirms o (log ++ [dealPromptCall configPath (workerName, deal)]).length rest := by
      simpa using hconf2
    simp only [dealsLoop]
    cases hx : objGet acc (o log.length) with
    | some m0 =>
      by_cases hee : e = o log.length
      · subst hee
        have hmm : m = m0 := by
          rw [he] at hx
          injection hx
        subst hmm
        exact dealsLoop_preserve configPath o rest _ _ _ _ w d hconf3
          (objGet_objSet_same _ _ _)
          (by rw [objGet_objSet_ne _ _ _ _ hw0]; exact hm) hwrest
      · exact dealsLoop_preserve configPath o rest _ _ _ _ w d hconf3
          (by rw [objGet_objSet_ne _ _ _ _ hee]; exact he) hm hwrest
    | none =>
      have hkey : (deal.chainNetwork.map ChainENV.toFluenceEnv).getD DEFAULT_PUBLIC_FLUENCE_ENV
          = o log.length := by
        rw [hcn0, henv]
        rfl
      have hee : e ≠ o log.length := by
        intro hcontra
        rw [hcontra, hx] at he
        cases he
      rw [hkey]
      exact dealsLoop_preserve configPath o rest _ _ _ _ w d hconf3
        (by rw [objGet_objSet_ne _ _ _ _ hee]; exact he) hm hwrest

theorem dealsLoop_confirm_mem (configPath : String) (o : Nat → FluenceEnv) :
    ∀ (rest : List (String × Deal)) (acc : Deals) (log : List PromptCall),
      confirms o log.length rest → (rest.map Prod.fst).Nodup →
      ∀ w d, (w, d) ∈ rest →
        ∃ cn m2, d.chainNetwork = some cn
          ∧ objGet (dealsLoop configPath o rest acc log).1 cn.toFluenceEnv = some m2
          ∧ objGet m2 w = some d
  | [], _, _, _, _, w, d, hmem => by cases hmem
  | (workerName, deal) :: rest, acc, log, hconf, hnd, w, d, hmem => by
    obtain ⟨⟨cn0, hcn0, henv⟩, hconf2⟩ := hconf
    simp only [List.map_cons, List.nodup_cons] at hnd
    have hconf3 : confirms o (log ++ [dealPromptCall configPath (workerName, deal)]).length rest := by
      simpa using hconf2
    rcases List.mem_cons.mp hmem with h1 | h1
    · injection h1 with hww hdd
      subst hww
      subst hdd
      refine ⟨cn0, ?_⟩
      have hwrest : w ∉ rest.map Prod.fst := hnd.1
      simp only [dealsLoop]
      cases hx : objGet acc (o log.length) with
      | some m0 =>
        have hstep : objGet (objSet acc (o log.length) (objSet m0 w d)) cn0.toFluenceEnv
            = some (objSet m0 w d) := by
          rw [← henv]
          exact objGet_objSet_same _ _ _
        obtain ⟨m2, hg, hg2⟩ := dealsLoop_preserve configPath o rest
          (objSet acc (o log.length) (objSet m0 w d))
          (log ++ [dealPromptCall configPath (w, d)])
          cn0.toFluenceEnv (objSet m0 w d) w d hconf3 hstep
          (objGet_objSet_same _ _ _) hwrest
        exact ⟨m2, hcn0, hg, hg2⟩
      | none =>
        have hkey : (d.chainNetwork.map ChainENV.toFluenceEnv).getD DEFAULT_PUBLIC_FLUENCE_ENV
            = o log.length := by
          rw [hcn0, henv]
          rfl
        rw [hkey]
        have hstep : objGet (objSet acc (o log.length) (objSet [] w d)) cn0.toFluenceEnv
            = some (objSet [] w d) := by
          rw [← henv]
          exact objGet_objSet_same _ _ _
        obtain ⟨m2, hg, hg2⟩ := dealsLoop_preserve configPath o rest
          (objSet acc (o log.length) (objSet [] w d))
          (log ++ [dealPromptCall configPath (w, d)])
          cn0.toFluenceEnv (objSet [] w d) w d hconf3 hstep
          (objGet_objSet_same _ _ _) hwrest
        exact ⟨m2, hcn0, hg, hg2⟩
    · simp only [dealsLoop]
      cases hx : objGet acc (o log.length) with
      | some m0 => exact dealsLoop_confirm_mem configPath o rest _ _ hconf3 hnd.2 w d h1
      | none => exact dealsLoop_confirm_mem configPath o rest _ _ hconf3 hnd.2 w d h1

theorem dealsLoop_congr (configPath : String) (o1 o2 : Nat → FluenceEnv) :
    ∀ (rest : List (String × Deal)) (acc : Deals) (log : List PromptCall),
      (∀ i, log.length ≤ i → i < log.length + rest.length → o1 i = o2 i) →
      dealsLoop configPath o1 rest acc log = dealsLoop configPath o2 rest acc log
  | [], _, _, _ => rfl
  | (workerName, deal) :: rest, acc, log, h => by
    have he : o1 log.length = o2 log.length :=
      h log.length le_rfl (by simp)
    simp only [dealsLoop, ← he]
    exact dealsLoop_congr configPath o1 o2 rest _ _ (by
      intro i h1 h2
      simp only [List.length_append, List.length_cons, List.length_nil] at h1 h2 ⊢
      exact h i (by omega) (by simp only [List.length_cons]; omega))

theorem hostsLoop_congr (configPath : String) (o1 o2 : Nat → FluenceEnv) :
    ∀ (rest : List (String × Host)) (acc : Hosts) (log : List PromptCall),
      (∀ i, log.length ≤ i → i < log.length + rest.length → o1 i = o2 i) →
      hostsLoop configPath o1 rest acc log = hostsLoop configPath o2 rest acc log
  | [], _, _, _ => rfl
  | (workerName, host) :: rest, acc, log, h => by
    have he : o1 log.length = o2 log.length :=
      h log.length le_rfl (by simp)
    simp only [hostsLoop, ← he]
    exact hostsLoop_congr configPath o1 o2 rest _ _ (by
      intro i h1 h2
      simp only [List.length_append, List.length_cons, List.length_nil] at h1 h2 ⊢
      exact h i (by omega) (by simp only [List.length_cons]; omega))

theorem str_append_empty (s : String) : s ++ "" = s := by
  apply String.ext
  simp

theorem str_empty_append (s : String) : "" ++ s = s := by
  apply String.ext
  simp

theorem mem_validationErrorToString :
    ∀ (l : List String) (e : String), e ∈ l →
      ∃ p q, validationErrorToString l = p ++ e ++ q
  | [], e, hmem => by cases hmem
  | [a], e, hmem => by
    have : e = a := by simpa using hmem
    subst this
    exact ⟨"", "", by simp [validationErrorToString, str_append_empty, str_empty_append]⟩
  | a :: b :: t, e, hmem => by
    rcases List.mem_cons.mp hmem with h1 | h1
    · subst h1
      refine ⟨"", ", " ++ validationErrorToString (b :: t), ?_⟩
      show e ++ ", " ++ validationErrorToString (b :: t)
        = "" ++ e ++ (", " ++ validationErrorToString (b :: t))
      rw [str_empty_append, String.append_assoc]
    · obtain ⟨p, q, hpq⟩ := mem_validationErrorToString (b :: t) e h1
      refine ⟨a ++ ", " ++ p, q, ?_⟩
      show a ++ ", " ++ validationErrorToString (b :: t) = a ++ ", " ++ p ++ e ++ q
      rw [hpq]
      simp [String.append_assoc]

theorem objGet_eq_none_of_not_mem {α β : Type} [DecidableEq α] (l : List (α × β)) (k : α)
    (h : k ∉ l.map Prod.fst) : objGet l k = none := by
  induction l with
  | nil => rfl
  | cons p t ih =>
    obtain ⟨k', v'⟩ := p
    simp only [List.map_cons, List.mem_cons] at h
    push_neg at h
    have hne : k' ≠ k := Ne.symm h.1
    simp [objGet, hne, ih h.2]

theorem hostsLoop_allCustom (configPath : String) (o : Nat → FluenceEnv) :
    ∀ (rest : List (String × Host)) (m : List (String × Host)) (log : List PromptCall),
      (∀ i, i < rest.length → o (log.length + i) = FluenceEnv.custom) →
      ((m ++ rest).map Prod.fst).Nodup →
      hostsLoop configPath o rest [(FluenceEnv.custom, m)] log
        = ([(FluenceEnv.custom, m ++ rest)], log ++ rest.map (hostPromptCall configPath))
  | [], m, log, _, _ => by simp [hostsLoop]
  | (workerName, host) :: rest, m, log, hcustom, hnd => by
    have h0 : o log.length = FluenceEnv.custom := by
      have := hcustom 0 (by simp)
      simpa using this
    have hwm : workerName ∉ m.map Prod.fst := by
      simp only [List.map_append, List.nodup_append, List.map_cons] at hnd
      intro hcontra
      exact hnd.2.2 hcontra (List.mem_cons_self _ _)
    have hget : objGet m workerName = none := objGet_eq_none_of_not_mem m _ hwm
    have hlook : objGet [(FluenceEnv.custom, m)] FluenceEnv.custom = some m := by
      simp [objGet]
    simp only [hostsLoop, h0, hlook]
    have hsets : objSet [(FluenceEnv.custom, m)] FluenceEnv.custom (objSet m workerName host)
        = [(FluenceEnv.custom, objSet m workerName host)] := by
      simp [objSet]
    rw [hsets, objSet_of_get_none m workerName host hget]
    rw [hostsLoop_allCustom configPath o rest (m ++ [(workerName, host)])
      (log ++ [hostPromptCall configPath (workerName, host)])
      (by
        intro i hi
        have := hcustom (i + 1) (by simp only [List.length_cons]; omega)
        simp only [List.length_append, List.length_cons, List.length_nil]
        rw [show log.length + 1 + i = log.length + (i + 1) by omega]
        exact this)
      (by
        rw [List.append_assoc]
        simpa using hnd)]
    simp

/-- The closed-world shape the spec requires of version-0 validation,
stated from the spec's words: the document is an object with no key beyond
`version`, `deals`, `hosts`; the required `version` key is present; and any
`chainNetwork` value of a deal record lies in the declared enum (or is the
JSON null the schema's `nullable` flag admits). -/
def specClosedWorldV0 (j : Json) : Bool :=
  match j with
  | .obj fs =>
    fs.all (fun q => decide (q.1 ∈ ["version", "deals", "hosts"]))
      && (objGet fs "version").isSome
      && (match objGet fs "deals" with
          | some (.obj dfs) =>
            dfs.all (fun q =>
              match q.2 with
              | .obj rfs =>
                match objGet rfs "chainNetwork" with
                | none => true
                | some .null => true
                | some (.str s) => decide (s ∈ CHAIN_ENV)
                | some _ => false
              | _ => true)
          | _ => true)
  | _ => false

/-- The closed-world shape the spec requires of version-1 validation,
stated from the spec's words: no undeclared top-level key, required
`version` present, and the `deals` / `hosts` sub-keys restricted to the
fixed environment set. -/
def specClosedWorldV1 (j : Json) : Bool :=
  match j with
  | .obj fs =>
    fs.all (fun q => decide (q.1 ∈ ["version", "deals", "hosts"]))
      && (objGet fs "version").isSome
      && (match objGet fs "deals" with
          | some (.obj dfs) =>
            dfs.all (fun q => decide (q.1 ∈ ["custom", "dar", "kras", "local", "stage"]))
          | _ => true)
      && (match objGet fs "hosts" with
          | some (.obj hfs) =>
            hfs.all (fun q => decide (q.1 ∈ ["custom", "dar", "kras", "local", "stage"]))
          | _ => true)
  | _ => false

theorem checkNoExtra_nil (p : String) (declared : List String)
    (fs : List (String × Json)) (h : checkNoExtra p declared fs = []) :
    ∀ q ∈ fs, q.1 ∈ declared := by
  intro q hq
  have h2 := List.filter_eq_nil_iff.mp (List.map_eq_nil_iff.mp h) q hq
  simpa using h2

theorem checkRequired_nil (p : String) (req : List String)
    (fs : List (String × Json)) (h : checkRequired p req fs = []) :
    ∀ k ∈ req, (objGet fs k).isSome := by
  intro k hk
  have h2 := List.filter_eq_nil_iff.mp (List.map_eq_nil_iff.mp h) k hk
  cases hk2 : objGet fs k with
  | none => rw [hk2] at h2; simp at h2
  | some v => simp [hk2]

theorem checkMapOf_nil (chk : String → Json → List String) (p : String)
    (dfs : List (String × Json)) (h : checkMapOf chk p (.obj dfs) = []) :
    ∀ q ∈ dfs, chk (p ++ "/" ++ q.1) q.2 = [] := by
  intro q hq
  exact List.flatten_eq_nil_iff.mp h _ (List.mem_map.mpr ⟨q, hq, rfl⟩)

theorem checkDeal_chainNetwork (p : String) (rfs : List (String × Json))
    (h : checkDeal p (.obj rfs) = []) :
    (match objGet rfs "chainNetwork" with
      | none => true
      | some .null => true
      | some (.str s) => decide (s ∈ CHAIN_ENV)
      | some _ => false) = true := by
  have hcn : checkChainNetwork p rfs = [] := by
    simp only [checkDeal, List.append_eq_nil] at h
    tauto
  simp only [checkChainNetwork] at hcn
  cases hget : objGet rfs "chainNetwork" with
  | none => simp
  | some u =>
    rw [hget] at hcn
    cases u with
    | null => simp
    | str s =>
      simp at hcn
      simp [hcn]
    | bool b => simp at hcn
    | num n => simp at hcn
    | arr xs => simp at hcn
    | obj ofs => simp at hcn

theorem migrate_deals_getD (configPath : String) (o : Nat → FluenceEnv) (config : ConfigV0) :
    (migrateV0ToV1 configPath o config).1.deals.getD []
      = (dealsLoop configPath o (config.deals.getD []) [] []).1 := by
  simp only [migrateV0ToV1]
  by_cases hb : (dealsLoop configPath o (config.deals.getD []) [] []).1.isEmpty
  · simp [hb, List.isEmpty_iff.mp hb]
  · simp [hb]

theorem migrate_hosts_getD (configPath : String) (o : Nat → FluenceEnv) (config : ConfigV0) :
    (migrateV0ToV1 configPath o config).1.hosts.getD []
      = (hostsLoop configPath o (config.hosts.getD []) []
          (dealsLoop configPath o (config.deals.getD []) [] []).2).1 := by
  simp only [migrateV0ToV1]
  by_cases hb : (hostsLoop configPath o (config.hosts.getD []) []
      (dealsLoop configPath o (config.deals.getD []) [] []).2).1.isEmpty
  · simp [hb, List.isEmpty_iff.mp hb]
  · simp [hb]

/-- The deal of the spec's example scenario A: `chainNetwork` present. -/
def dealAlice : Deal :=
  { timestamp := "t", definition := "cid1", dealId := "x1", dealIdOriginal := "0xABC"
    chainNetworkId := 1, chainNetwork := some .kras }

/-- A second deal with the same legacy `chainNetwork`. -/
def dealBob : Deal :=
  { timestamp := "t3", definition := "cid3", dealId := "x2", dealIdOriginal := "0xDEF"
    chainNetworkId := 1, chainNetwork := some .kras }

/-- A version-0 document with the single deal of scenario A. -/
def c1Config : ConfigV0 := ⟨some [("alice", dealAlice)], none⟩

/-- C1: the claim states that a deal whose legacy `chainNetwork` is present
is categorised without any operator prompt.  False: the migration step of
`workers.ts` calls `fluenceEnvPrompt` for every deal record; on the
scenario-A document the prompt transcript contains exactly the prompt for
`alice`, with her `chainNetwork` offered merely as the suggested default. -/
theorem c1_counterexample :
    (migrateV0ToV1 "cfgpath" (fun _ => FluenceEnv.kras) c1Config).2
      = [dealPromptCall "cfgpath" ("alice", dealAlice)] := rfl

/-- C1 (amended): for every version-0 document and every deal record whose
`chainNetwork` is present, the migration issues one operator prompt for the
record with `chainNetwork` as the suggested default; when every deal record
has `chainNetwork` present and the operator confirms each suggested
default, every deal record is assigned to the category named by its
`chainNetwork` (merged with the other records of that category, keyed by
its original record name). -/
theorem c1_amended (configPath : String) (o : Nat → FluenceEnv) (config : ConfigV0)
    (ds : List (String × Deal))
    (hds : config.deals = some ds)
    (hnd : (ds.map Prod.fst).Nodup)
    (hconf : confirms o 0 ds) :
    (migrateV0ToV1 configPath o config).2.take ds.length
        = ds.map (dealPromptCall configPath)
    ∧ ∀ w d, (w, d) ∈ ds → ∃ cn m, d.chainNetwork = some cn
        ∧ objGet ((migrateV0ToV1 configPath o config).1.deals.getD []) cn.toFluenceEnv
            = some m
        ∧ objGet m w = some d := by
  constructor
  · rw [migrateV0ToV1_log, hds]
    have ht := List.take_left (ds.map (dealPromptCall configPath))
      ((config.hosts.getD []).map (hostPromptCall configPath))
    simp only [List.length_map] at ht
    simp [ht]
  · intro w d hmem
    have hconf0 : confirms o ([] : List PromptCall).length ds := hconf
    obtain ⟨cn, m2, hcn, hg, hg2⟩ :=
      dealsLoop_confirm_mem configPath o ds [] [] hconf0 hnd w d hmem
    refine ⟨cn, m2, hcn, ?_, hg2⟩
    rw [migrate_deals_getD, hds]
    exact hg

/-- Closed instance of the amended C1 on the scenario-A document, the
operator confirming the suggested default. -/
theorem c1_witness :
    confirms (fun _ => FluenceEnv.kras) 0 [("alice", dealAlice)]
    ∧ ∀ w d, (w, d) ∈ [("alice", dealAlice)] → ∃ cn m, d.chainNetwork = some cn
        ∧ objGet ((migrateV0ToV1 "cfgpath" (fun _ => FluenceEnv.kras) c1Config).1.deals.getD [])
            cn.toFluenceEnv = some m
        ∧ objGet m w = some d :=
  ⟨⟨⟨ChainENV.kras, rfl, rfl⟩, trivial⟩,
    (c1_amended "cfgpath" (fun _ => FluenceEnv.kras) c1Config [("alice", dealAlice)] rfl
      (by decide) ⟨⟨ChainENV.kras, rfl, rfl⟩, trivial⟩).2⟩

/-- C2: the claim states every record lands under the category resolved for
it (here, the operator's prompt answer).  Evaluating the code at the
failing input: one deal with `chainNetwork: kras`, operator answers `dar`;
the code looks up `deals[env]` but stores the fresh sub-map under
`deals[deal.chainNetwork ?? DEFAULT_PUBLIC_FLUENCE_ENV]`, so the record
lands under `kras` and nothing at all lands under the answered `dar`. -/
theorem c2_code_bug_eval :
    (migrateV0ToV1 "cfgpath" (fun _ => FluenceEnv.dar)
        ⟨some [("alice", dealAlice)], none⟩).1.deals
      = some [(FluenceEnv.kras, [("alice", dealAlice)])]
    ∧ objGet ((migrateV0ToV1 "cfgpath" (fun _ => FluenceEnv.dar)
        ⟨some [("alice", dealAlice)], none⟩).1.deals.getD []) FluenceEnv.dar = none :=
  ⟨rfl, rfl⟩

/-- C3: the claim states every original record appears exactly once in the
output.  Evaluating the code at the failing input: two deals with
`chainNetwork: kras`; the operator answers `kras` for `alice` and `dar` for
`bob`.  Because `deals[dar]` is undefined, the fresh sub-map for `bob` is
stored under `deals[bob.chainNetwork] = deals[kras]`, overwriting the
sub-map already holding `alice`: her record is silently dropped. -/
theorem c3_code_bug_eval :
    (migrateV0ToV1 "cfgpath" (fun n => if n = 0 then FluenceEnv.kras else FluenceEnv.dar)
        ⟨some [("alice", dealAlice), ("bob", dealBob)], none⟩).1.deals
      = some [(FluenceEnv.kras, [("bob", dealBob)])] := rfl

/-- C4: for every input document, the migration step validates it against
`configSchemaV0` first, and on failure throws a `Migration error` whose
message renders every collected schema violation — each violation occurs
verbatim inside the thrown message. -/
theorem c4_validation_gate (configPath : String) (o : Nat → FluenceEnv) (j : Json)
    (h : checkConfigSchemaV0 j ≠ []) :
    migration0 configPath o j
      = .error ("Migration error. Errors: "
          ++ validationErrorToString (checkConfigSchemaV0 j))
    ∧ ∀ e ∈ checkConfigSchemaV0 j, ∃ p q,
        "Migration error. Errors: " ++ validationErrorToString (checkConfigSchemaV0 j)
          = ("Migration error. Errors: " ++ p) ++ e ++ q := by
  constructor
  · obtain ⟨a, t, hat⟩ : ∃ a t, checkConfigSchemaV0 j = a :: t := by
      cases hc : checkConfigSchemaV0 j with
      | nil => exact absurd hc h
      | cons a t => exact ⟨a, t, rfl⟩
    simp only [migration0, hat]
  · intro e he
    obtain ⟨p, q, hpq⟩ := mem_validationErrorToString _ e he
    refine ⟨p, q, ?_⟩
    rw [hpq]
    simp [String.append_assoc]

/-- A document violating `configSchemaV0`: an undeclared top-level key. -/
def c4BadDoc : Json := .obj [("version", .num 0), ("junk", .str "x")]

/-- Closed instance of C4 at a concretely invalid document. -/
theorem c4_witness :
    checkConfigSchemaV0 c4BadDoc ≠ []
    ∧ migration0 "cfgpath" (fun _ => FluenceEnv.kras) c4BadDoc
        = .error ("Migration error. Errors: "
            ++ validationErrorToString (checkConfigSchemaV0 c4BadDoc)) :=
  ⟨by decide, (c4_validation_gate "cfgpath" (fun _ => FluenceEnv.kras) c4BadDoc (by decide)).1⟩

/-- C5: for a version-0 document whose `hosts` map is non-empty (host
records carry no environment hint), the migration issues exactly one prompt
per worker name in `hosts`, in the document's key order (after the deal
prompts), suggesting `custom`; when the operator answers `custom` to each
of those prompts the output nests every host under the single `custom`
category, keyed by worker name. -/
theorem c5_host_prompts (configPath : String) (o : Nat → FluenceEnv) (config : ConfigV0)
    (hs : List (String × Host))
    (hhs : config.hosts = some hs)
    (hne : hs ≠ [])
    (hnd : (hs.map Prod.fst).Nodup)
    (hans : ∀ i, i < hs.length →
      o ((config.deals.getD []).length + i) = FluenceEnv.custom) :
    (migrateV0ToV1 configPath o config).2
        = (config.deals.getD []).map (dealPromptCall configPath)
          ++ hs.map (hostPromptCall configPath)
    ∧ (migrateV0ToV1 configPath o config).1.hosts = some [(FluenceEnv.custom, hs)] := by
  have hlen : (dealsLoop configPath o (config.deals.getD []) [] []).2.length
      = (config.deals.getD []).length := by
    rw [dealsLoop_log]
    simp
  constructor
  · rw [migrateV0ToV1_log, hhs]
    simp
  · obtain ⟨⟨w0, h0⟩, rest, rfl⟩ : ∃ p rest, hs = p :: rest := by
      cases hs with
      | nil => exact absurd rfl hne
      | cons p rest => exact ⟨p, rest, rfl⟩
    have h0c : o ((dealsLoop configPath o (config.deals.getD []) [] []).2.length)
        = FluenceEnv.custom := by
      rw [hlen]
      have := hans 0 (by simp)
      simpa using this
    simp only [migrateV0ToV1, hhs, Option.getD_some]
    simp only [hostsLoop, h0c]
    have hred : objGet ([] : Hosts) FluenceEnv.custom = none := rfl
    rw [hred]
    have hrun := hostsLoop_allCustom configPath o rest [(w0, h0)]
      ((dealsLoop configPath o (config.deals.getD []) [] []).2
        ++ [hostPromptCall configPath (w0, h0)])
      (by
        intro i hi
        simp only [List.length_append, List.length_cons, List.length_nil, hlen]
        have := hans (i + 1) (by simp only [List.length_cons]; omega)
        rw [show (config.deals.getD []).length + 1 + i
          = (config.deals.getD []).length + (i + 1) by omega]
        exact this)
      (by simpa using hnd)
    simp only [objSet] at hrun ⊢
    rw [hrun]
    simp

/-- A host record with no environment hint. -/
def hostW1 : Host :=
  { timestamp := "t2", definition := "cid2", relayId := "relay1", dummyDealId := "dummy1"
    installation_spells := [⟨"h1", "s1", "w1id"⟩] }

/-- A version-0 document with one direct-hosting record and no deals. -/
def c5Config : ConfigV0 := ⟨none, some [("w1", hostW1)]⟩

/-- Closed instance of C5: scenario B of the spec, with answer `custom`. -/
theorem c5_witness :
    ([("w1", hostW1)] : List (String × Host)) ≠ []
    ∧ (migrateV0ToV1 "cfgpath" (fun _ => FluenceEnv.custom) c5Config).1.hosts
        = some [(FluenceEnv.custom, [("w1", hostW1)])] :=
  ⟨by decide,
    (c5_host_prompts "cfgpath" (fun _ => FluenceEnv.custom) c5Config [("w1", hostW1)] rfl
      (by decide) (by decide) (fun i _ => rfl)).2⟩

/-- No category of a migrated record map is empty: the map is absent, or it
is a non-empty object all of whose category sub-maps are non-empty. -/
def noEmptyCats {γ : Type} : Option (List (FluenceEnv × List (String × γ))) → Bool
  | none => true
  | some l => !l.isEmpty && l.all (fun p => !p.2.isEmpty)

/-- C6: the migrated output never contains an empty category; the `deals`
(resp. `hosts`) key is omitted exactly when the version-0 document has no
deal (resp. host) records; and the empty version-0 document migrates to the
bare version-1 document with no prompt issued. -/
theorem c6_no_empty_categories (configPath : String) (o : Nat → FluenceEnv)
    (config : ConfigV0) :
    noEmptyCats (migrateV0ToV1 configPath o config).1.deals = true
    ∧ noEmptyCats (migrateV0ToV1 configPath o config).1.hosts = true
    ∧ (migrateV0ToV1 configPath o config).1.deals.isNone
        = (config.deals.getD []).isEmpty
    ∧ (migrateV0ToV1 configPath o config).1.hosts.isNone
        = (config.hosts.getD []).isEmpty
    ∧ migrateV0ToV1 configPath o ⟨none, none⟩ = (⟨none, none⟩, []) := by
  refine ⟨?_, ?_, ?_, ?_, rfl⟩
  · simp only [migrateV0ToV1]
    by_cases hb : (dealsLoop configPath o (config.deals.getD []) [] []).1.isEmpty
    · simp [noEmptyCats, hb]
    · simp only [hb, if_false, Bool.false_eq_true, noEmptyCats, Bool.and_eq_true,
        Bool.not_eq_true', List.all_eq_true]
      refine ⟨by simp [hb], ?_⟩
      intro p hp
      have := dealsLoop_vals_ne_nil configPath o (config.deals.getD []) [] []
        (by intro q hq; cases hq) p hp
      simp [List.isEmpty_iff, this]
  · simp only [migrateV0ToV1]
    by_cases hb : (hostsLoop configPath o (config.hosts.getD []) []
        (dealsLoop configPath o (config.deals.getD []) [] []).2).1.isEmpty
    · simp [noEmptyCats, hb]
    · simp only [hb, if_false, Bool.false_eq_true, noEmptyCats, Bool.and_eq_true,
        Bool.not_eq_true', List.all_eq_true]
      refine ⟨by simp [hb], ?_⟩
      intro p hp
      have := hostsLoop_vals_ne_nil configPath o (config.hosts.getD []) []
        (dealsLoop configPath o (config.deals.getD []) [] []).2
        (by intro q hq; cases hq) p hp
      simp [List.isEmpty_iff, this]
  · cases hd : config.deals.getD [] with
    | nil => simp [migrateV0ToV1, hd, dealsLoop]
    | cons p rest =>
      have hne := dealsLoop_ne_nil configPath o (config.deals.getD []) [] []
        (by rw [hd]; exact List.cons_ne_nil _ _)
      have hb : (dealsLoop configPath o (config.deals.getD []) [] []).1.isEmpty = false := by
        simp [List.isEmpty_iff, hne]
      have hrhs : (config.deals.getD []).isEmpty = false := by simp [hd]
      simp [migrateV0ToV1, hb, hrhs]
  · cases hh : config.hosts.getD [] with
    | nil => simp [migrateV0ToV1, hh, hostsLoop]
    | cons p rest =>
      have hne := hostsLoop_ne_nil configPath o (config.hosts.getD []) []
        (dealsLoop configPath o (config.deals.getD []) [] []).2
        (by rw [hh]; exact List.cons_ne_nil _ _)
      have hb : (hostsLoop configPath o (config.hosts.getD []) []
          (dealsLoop configPath o (config.deals.getD []) [] []).2).1.isEmpty = false := by
        simp [List.isEmpty_iff, hne]
      have hrhs : (config.hosts.getD []).isEmpty = false := by simp [hh]
      simp [migrateV0ToV1, hb, hrhs]

/-- C7: the version-0 and version-1 validators enforce closed-world object
shapes: an accepted document has no undeclared top-level key, its required
`version` key is present, every `chainNetwork` value of an accepted
version-0 deal record lies in the declared enum (or is the null admitted by
the schema's `nullable` flag), and an accepted version-1 `deals` / `hosts`
object has no sub-key outside the fixed environment set.  Equivalently, a
document violating any of these is rejected. -/
theorem c7_closed_world (j0 j1 : Json)
    (h0 : validateConfigSchemaV0 j0 = true)
    (h1 : validateConfigSchemaV1 j1 = true) :
    specClosedWorldV0 j0 = true ∧ specClosedWorldV1 j1 = true := by
  constructor
  · have h0e : checkConfigSchemaV0 j0 = [] := by
      simpa [validateConfigSchemaV0, List.isEmpty_iff] using h0
    cases j0 with
    | obj fs =>
      simp only [checkConfigSchemaV0] at h0e
      obtain ⟨h0e, -⟩ := List.append_eq_nil.mp h0e
      obtain ⟨h0e, hD⟩ := List.append_eq_nil.mp h0e
      obtain ⟨h0e, -⟩ := List.append_eq_nil.mp h0e
      obtain ⟨hA, hB⟩ := List.append_eq_nil.mp h0e
      simp only [specClosedWorldV0, Bool.and_eq_true]
      refine ⟨⟨?_, ?_⟩, ?_⟩
      · rw [List.all_eq_true]
        intro q hq
        simp [checkNoExtra_nil _ _ _ hA q hq]
      · simpa using checkRequired_nil _ _ _ hB "version" (by simp)
      · cases hdg : objGet fs "deals" with
        | none => simp
        | some v =>
          rw [hdg] at hD
          cases v with
          | obj dfs =>
            rw [List.all_eq_true]
            intro q hq
            have hrec := checkMapOf_nil _ _ _ hD q hq
            cases hq2 : q.2 with
            | obj rfs => exact checkDeal_chainNetwork _ _ (hq2 ▸ hrec)
            | null => rfl
            | bool b => rfl
            | num n => rfl
            | str s => rfl
            | arr xs => rfl
          | null => simp
          | bool b => simp
          | num n => simp
          | str s => simp
          | arr xs => simp
    | null => simp [checkConfigSchemaV0] at h0e
    | bool b => simp [checkConfigSchemaV0] at h0e
    | num n => simp [checkConfigSchemaV0] at h0e
    | str s => simp [checkConfigSchemaV0] at h0e
    | arr xs => simp [checkConfigSchemaV0] at h0e
  · have h1e : checkConfigSchemaV1 j1 = [] := by
      simpa [validateConfigSchemaV1, List.isEmpty_iff] using h1
    cases j1 with
    | obj fs =>
      simp only [checkConfigSchemaV1] at h1e
      obtain ⟨h1e, hE⟩ := List.append_eq_nil.mp h1e
      obtain ⟨h1e, hD⟩ := List.append_eq_nil.mp h1e
      obtain ⟨h1e, -⟩ := List.append_eq_nil.mp h1e
      obtain ⟨hA, hB⟩ := List.append_eq_nil.mp h1e
      simp only [specClosedWorldV1, Bool.and_eq_true]
      refine ⟨⟨⟨?_, ?_⟩, ?_⟩, ?_⟩
      · rw [List.all_eq_true]
        intro q hq
        simp [checkNoExtra_nil _ _ _ hA q hq]
      · simpa using checkRequired_nil _ _ _ hB "version" (by simp)
      · cases hdg : objGet fs "deals" with
        | none => simp
        | some v =>
          rw [hdg] at hD
          cases v with
          | obj dfs =>
            have hkeys : checkNoExtra "/deals" ["custom", "dar", "kras", "local", "stage"] dfs
                = [] := by
              simp only [checkEnvMap] at hD
              exact (List.append_eq_nil.mp hD).1
            rw [List.all_eq_true]
            intro q hq
            simp [checkNoExtra_nil _ _ _ hkeys q hq]
          | null => simp
          | bool b => simp
          | num n => simp
          | str s => simp
          | arr xs => simp
      · cases hhg : objGet fs "hosts" with
        | none => simp
        | some v =>
          rw [hhg] at hE
          cases v with
          | obj hfs =>
            have hkeys : checkNoExtra "/hosts" ["custom", "dar", "kras", "local", "stage"] hfs
                = [] := by
              simp only [checkEnvMap] at hE
              exact (List.append_eq_nil.mp hE).1
            rw [List.all_eq_true]
            intro q hq
            simp [checkNoExtra_nil _ _ _ hkeys q hq]
          | null => simp
          | bool b => simp
          | num n => simp
          | str s => simp
          | arr xs => simp
    | null => simp [checkConfigSchemaV1] at h1e
    | bool b => simp [checkConfigSchemaV1] at h1e
    | num n => simp [checkConfigSchemaV1] at h1e
    | str s => simp [checkConfigSchemaV1] at h1e
    | arr xs => simp [checkConfigSchemaV1] at h1e

/-- The scenario-A deal record as a JSON value. -/
def dealAliceJson : Json :=
  .obj [("timestamp", .str "t"), ("definition", .str "cid1"), ("dealId", .str "x1"),
    ("dealIdOriginal", .str "0xABC"), ("chainNetworkId", .num 1),
    ("chainNetwork", .str "kras")]

/-- A valid version-0 document with one deal record. -/
def c7DocV0 : Json := .obj [("version", .num 0), ("deals", .obj [("alice", dealAliceJson)])]

/-- A valid version-1 document with the same deal nested under `kras`. -/
def c7DocV1 : Json :=
  .obj [("version", .num 1), ("deals", .obj [("kras", .obj [("alice", dealAliceJson)])])]

/-- Closed instance of C7 at concretely valid documents. -/
theorem c7_witness :
    validateConfigSchemaV0 c7DocV0 = true
    ∧ validateConfigSchemaV1 c7DocV1 = true
    ∧ (specClosedWorldV0 c7DocV0 = true ∧ specClosedWorldV1 c7DocV1 = true) :=
  ⟨by decide, by decide, c7_closed_world c7DocV0 c7DocV1 (by decide) (by decide)⟩

/-- C8: every record value stored anywhere in the migrated output is the
unchanged original record, still keyed by its original record name: looking
it up in the output under any category returns exactly the value the flat
version-0 map held for that name; only the category nesting is new.  The
deal part and the host part hold independently, so the property is
meaningful for documents carrying only deals or only hosts. -/
theorem c8_records_preserved (configPath : String) (o : Nat → FluenceEnv) (config : ConfigV0)
    (hdn : ((config.deals.getD []).map Prod.fst).Nodup)
    (hhn : ((config.hosts.getD []).map Prod.fst).Nodup) :
    (∀ (e : FluenceEnv) (dm : List (String × Deal)) (w : String) (d : Deal),
      objGet ((migrateV0ToV1 configPath o config).1.deals.getD []) e = some dm →
      objGet dm w = some d → objGet (config.deals.getD []) w = some d)
    ∧ (∀ (e' : FluenceEnv) (hm : List (String × Host)) (w' : String) (h : Host),
      objGet ((migrateV0ToV1 configPath o config).1.hosts.getD []) e' = some hm →
      objGet hm w' = some h → objGet (config.hosts.getD []) w' = some h) := by
  constructor
  · intro e dm w d h1 h2
    rw [migrate_deals_getD] at h1
    exact dealsLoop_sound configPath o (config.deals.getD []) (config.deals.getD []) [] []
      (by intro e2 m2 w2 d2 hx; simp [objGet] at hx)
      (fun w2 d2 hw => objGet_of_mem_nodup _ _ _ hw hdn)
      e dm w d h1 h2
  · intro e' hm w' h h3 h4
    rw [migrate_hosts_getD] at h3
    exact hostsLoop_sound configPath o (config.hosts.getD []) (config.hosts.getD []) []
      (dealsLoop configPath o (config.deals.getD []) [] []).2
      (by intro e2 m2 w2 h5 hx; simp [objGet] at hx)
      (fun w2 h5 hw => objGet_of_mem_nodup _ _ _ hw hhn)
      e' hm w' h h3 h4

/-- A version-0 document with one deal and one host. -/
def c8Config : ConfigV0 := ⟨some [("alice", dealAlice)], some [("w1", hostW1)]⟩

/-- Closed instance of C8 on a document with one deal and one host. -/
theorem c8_witness :
    objGet ((migrateV0ToV1 "cfgpath" (fun _ => FluenceEnv.custom) c8Config).1.deals.getD [])
        FluenceEnv.kras = some [("alice", dealAlice)]
    ∧ objGet ((migrateV0ToV1 "cfgpath" (fun _ => FluenceEnv.custom) c8Config).1.hosts.getD [])
        FluenceEnv.custom = some [("w1", hostW1)]
    ∧ (objGet (c8Config.deals.getD []) "alice" = some dealAlice
        ∧ objGet (c8Config.hosts.getD []) "w1" = some hostW1) :=
  ⟨by decide, by decide,
    (c8_records_preserved "cfgpath" (fun _ => FluenceEnv.custom) c8Config
        (by decide) (by decide)).1
      FluenceEnv.kras [("alice", dealAlice)] "alice" dealAlice (by decide) (by decide),
    (c8_records_preserved "cfgpath" (fun _ => FluenceEnv.custom) c8Config
        (by decide) (by decide)).2
      FluenceEnv.custom [("w1", hostW1)] "w1" hostW1 (by decide) (by decide)⟩

/-- C9: the migration chain contains exactly one step, whose domain is
version 0: migrating a document already at the latest version applies no
step and passes the document through unchanged with no prompt, while a
version-0 document does get the single step applied. -/
theorem c9_latest_noop (configPath : String) (o : Nat → FluenceEnv) :
    (migrations configPath o).length = 1
    ∧ (∀ c1 : ConfigV1, migrateToLatest configPath o (.v1 c1) = .ok (.v1 c1, []))
    ∧ (∀ c0 : ConfigV0, migrateToLatest configPath o (.v0 c0)
        = .ok (.v1 (migrateV0ToV1 configPath o c0).1, (migrateV0ToV1 configPath o c0).2)) := by
  refine ⟨rfl, fun c1 => rfl, fun c0 => ?_⟩
  simp [migrateToLatest, migrations, configVersion, runChain, migrationStep]

/-- C10: the migration step is deterministic given the operator's answers:
two runs on the same version-0 document whose oracles agree on every prompt
actually issued (one per deal record followed by one per host record)
produce identical outputs and transcripts. -/
theorem c10_deterministic (configPath : String) (config : ConfigV0)
    (o1 o2 : Nat → FluenceEnv)
    (h : ∀ i, i < (config.deals.getD []).length + (config.hosts.getD []).length →
      o1 i = o2 i) :
    migrateV0ToV1 configPath o1 config = migrateV0ToV1 configPath o2 config := by
  have hd : dealsLoop configPath o1 (config.deals.getD []) [] []
      = dealsLoop configPath o2 (config.deals.getD []) [] [] := by
    apply dealsLoop_congr
    intro i h1 h2
    apply h
    simp only [List.length_nil] at h2
    omega
  have hlen : (dealsLoop configPath o2 (config.deals.getD []) [] []).2.length
      = (config.deals.getD []).length := by
    rw [dealsLoop_log]
    simp
  have hh : hostsLoop configPath o1 (config.hosts.getD []) []
        (dealsLoop configPath o2 (config.deals.getD []) [] []).2
      = hostsLoop configPath o2 (config.hosts.getD []) []
        (dealsLoop configPath o2 (config.deals.getD []) [] []).2 := by
    apply hostsLoop_congr
    intro i h1 h2
    apply h
    rw [hlen] at h2
    omega
  simp only [migrateV0ToV1]
  rw [hd, hh]

/-- A version-0 document with one deal record. -/
def c10Config : ConfigV0 := ⟨some [("alice", dealAlice)], none⟩

/-- An oracle differing from the constant `kras` oracle only at indices
beyond the single prompt the document triggers. -/
def c10OracleB : Nat → FluenceEnv := fun n => if n = 0 then .kras else .dar

/-- Closed instance of C10: two oracles agreeing on the one consulted
answer produce the same migrated document. -/
theorem c10_witness :
    (∀ i, i < (c10Config.deals.getD []).length + (c10Config.hosts.getD []).length →
      (fun _ => FluenceEnv.kras) i = c10OracleB i)
    ∧ migrateV0ToV1 "cfgpath" (fun _ => FluenceEnv.kras) c10Config
        = migrateV0ToV1 "cfgpath" c10OracleB c10Config := by
  have hyp : ∀ i, i < (c10Config.deals.getD []).length + (c10Config.hosts.getD []).length →
      (fun _ => FluenceEnv.kras) i = c10OracleB i := by
    intro i hi
    simp only [c10Config, Option.getD_some, Option.getD_none, List.length_cons,
      List.length_nil] at hi
    have h0 : i = 0 := by omega
    subst h0
    rfl
  exact ⟨hyp, c10_deterministic "cfgpath" c10Config (fun _ => FluenceEnv.kras) c10OracleB hyp⟩

end WorkersConfig
